import Mathlib

/-!
Verification of the template discovery and extraction pipeline in
`backend/azure_architectures.py`, together with the HTTP helper layer.

The Python source is shallowly embedded: JSON values are modelled by an
inductive `Json` type with Python truthiness, the remote GitHub state is a
`World` of response functions, and each Python function becomes a Lean
definition of the same name.  Fallible code returns `Except`.
-/

namespace AzureArch

/-- JSON values, as produced by `json.loads` / the GitHub API. -/
inductive Json where
  | null
  | bool (b : Bool)
  | num (n : Int)
  | str (s : String)
  | arr (elts : List Json)
  | obj (fields : List (String × Json))

mutual

/-- Structural equality on JSON values (Python `==` on decoded JSON). -/
def Json.beq : Json → Json → Bool
  | .null, .null => true
  | .bool x, .bool y => x == y
  | .num x, .num y => x == y
  | .str x, .str y => x == y
  | .arr xs, .arr ys => Json.beqList xs ys
  | .obj xs, .obj ys => Json.beqKv xs ys
  | _, _ => false

def Json.beqList : List Json → List Json → Bool
  | [], [] => true
  | x :: xs, y :: ys => Json.beq x y && Json.beqList xs ys
  | _, _ => false

def Json.beqKv : List (String × Json) → List (String × Json) → Bool
  | [], [] => true
  | (k1, v1) :: xs, (k2, v2) :: ys => k1 == k2 && Json.beq v1 v2 && Json.beqKv xs ys
  | _, _ => false

end

instance : BEq Json := ⟨Json.beq⟩

/-- Python truthiness of a JSON value (`bool(x)`). -/
def Json.truthy : Json → Bool
  | .null => false
  | .bool b => b
  | .num n => n != 0
  | .str s => s != ""
  | .arr elts => !elts.isEmpty
  | .obj fields => !fields.isEmpty

/-- Association-list lookup used for `dict` access on JSON objects. -/
def lookupKv (fields : List (String × Json)) (key : String) : Option Json :=
  match fields with
  | [] => none
  | (k, v) :: rest => if k = key then some v else lookupKv rest key

/-- `d.get(key)` on a JSON object; `none` when the receiver is not a dict
or the key is absent.  (A Python `AttributeError` on a non-dict receiver
is not tracked; the claims below never depend on such states.) -/
def Json.getKey : Json → String → Option Json
  | .obj fields, key => lookupKv fields key
  | _, _ => none

/-- `d.get(key)` collapsed with Python's `None`: absent keys and stored
nulls both come out as `Json.null`. -/
def Json.getKeyD (j : Json) (key : String) : Json :=
  (j.getKey key).getD Json.null

/-- `key in d` for a JSON object. -/
def Json.hasKey (j : Json) (key : String) : Bool :=
  (j.getKey key).isSome

/-- The string payload of a JSON value; non-strings collapse to `""`
(Python would raise on such states; the claims never exercise them). -/
def Json.asStr : Json → String
  | .str s => s
  | _ => ""

/-- Structurally recursive worker for `str.split(sep)` (non-empty `sep`):
`fuel` is an upper bound on the input length, so the fallthrough case is
unreachable.  (The library `String.splitOn` is defined by well-founded
recursion and does not evaluate inside the kernel.) -/
def splitChars (sep : List Char) : Nat → List Char → List Char → List (List Char)
  | _, [], acc => [acc]
  | 0, l, acc => [acc ++ l]
  | fuel + 1, c :: cs, acc =>
      if sep.isPrefixOf (c :: cs) then
        acc :: splitChars sep fuel ((c :: cs).drop sep.length) []
      else splitChars sep fuel cs (acc ++ [c])

/-- Python `s.split(sep)` for a non-empty separator. -/
def pySplit (s sep : String) : List String :=
  (splitChars sep.data s.data.length s.data []).map String.mk

/-- Python `c in s` for a single character. -/
def pyContainsChar (s : String) (c : Char) : Bool :=
  s.data.contains c

/-- Python `s.lower()` (ASCII case folding suffices here). -/
def pyToLower (s : String) : String :=
  String.mk (s.data.map Char.toLower)

/-- Errors a pipeline step can raise.  `httpError` is `requests.HTTPError`
(the only class caught by the code); `jsonDecodeError` stands for
`requests.exceptions.JSONDecodeError`, which does not subclass `HTTPError`.
`outOfFuel` is a modelling artefact for the unbounded contents walk: the
Python loop would simply not terminate on such remote states, and no
theorem below depends on this case. -/
inductive PyErr where
  | httpError (status : Nat) (body : String)
  | jsonDecodeError
  | outOfFuel
deriving DecidableEq

/-- What `fetch_repo_content` hands back on success: a directory listing
(the API returned a JSON array) or a single JSON value (a decoded file,
a `\x7b"_raw": text\x7d` wrapper, or any other non-list JSON). -/
inductive Content where
  | listing (entries : List Json)
  | json (j : Json)

/-- The remote world a pipeline run interacts with, together with the
module-level configuration read from the environment:
`forceWalk` is `FORCE_CONTENTS_WALK`, `hasToken` is a non-empty
`GITHUB_TOKEN`, `githubSources` is `GITHUB_SOURCES`.
`fetch owner repo path` is the outcome of `fetch_repo_content`, and
`searchNet q page` is the decoded body of a `/search/code` request. -/
structure World where
  forceWalk : Bool
  hasToken : Bool
  githubSources : List String
  fetch : String → String → String → Except PyErr (Option Content)
  searchNet : String → Nat → Except PyErr Json

/-- `ARM_CANDIDATES` -/
def ARM_CANDIDATES : List String := ["azuredeploy.json", "main.json", "template.json"]

/-- `BICEP_CANDIDATES` -/
def BICEP_CANDIDATES : List String := ["main.bicep", "azuredeploy.bicep", "template.bicep"]

/-- `infer_dir_from_path`: drop the last `/`-segment. -/
def infer_dir_from_path (p : String) : String :=
  if pyContainsChar p '/' then String.intercalate "/" ((pySplit p "/").dropLast) else ""

/-- One round of the `for it in listing` body of `_walk_contents`:
directories are enqueued (FIFO), files whose name is a known template
filename are recorded (the hit dict `\x7b"path": it["path"]\x7d` is modelled by
its path value), and the loop breaks once `limit` hits are collected. -/
def walkEntries (limit : Nat) (queue : List String) (hits : List Json) :
    List Json → List String × List Json
  | [] => (queue, hits)
  | it :: rest =>
    match it.getKey "type" with
    | some (.str "dir") =>
        walkEntries limit (queue ++ [((it.getKey "path").getD Json.null).asStr]) hits rest
    | some (.str "file") =>
        match ((it.getKey "name").getD (Json.str "")) with
        | .str name =>
            if name ∈ ARM_CANDIDATES ++ BICEP_CANDIDATES then
              let hits' := hits ++ [(it.getKey "path").getD Json.null]
              if limit ≤ hits'.length then (queue, hits')
              else walkEntries limit queue hits' rest
            else walkEntries limit queue hits rest
        | _ => walkEntries limit queue hits rest
    | _ => walkEntries limit queue hits rest

/-- The `while queue and len(hits) < limit` loop of `_walk_contents`.
`fuel` bounds the number of iterations (see `PyErr.outOfFuel`). -/
def walkLoop (w : World) (owner repo : String) (limit : Nat) :
    Nat → List String → List Json → Except PyErr (List Json)
  | 0, _, _ => .error .outOfFuel
  | _ + 1, [], hits => .ok hits
  | fuel + 1, cur :: qrest, hits =>
    if hits.length < limit then do
      let fetched ← w.fetch owner repo cur
      let entries : List Json :=
        match fetched with
        | none => []
        | some (.listing l) => l
        | some (.json j) => if j.truthy then [j] else []
      walkLoop w owner repo limit fuel (walkEntries limit qrest hits entries).1
        (walkEntries limit qrest hits entries).2
    else .ok hits

/-- `_walk_contents`. -/
def walk_contents (w : World) (owner repo : String) (root : String) (limit : Nat)
    (fuel : Nat) : Except PyErr (List Json) :=
  walkLoop w owner repo limit fuel (if root != "" then [root] else [""]) []

/-- The search query string built by `_search_code_api`. -/
def searchQuery (owner repo : String) (subdir : Option String) (fname : String) : String :=
  let q := "repo:" ++ owner ++ "/" ++ repo ++ " filename:" ++ fname
  match subdir with
  | some s => if s != "" then q ++ " path:" ++ s else q
  | none => q

/-- The `for it in items` body of `_search_code_api`: record each item's
path value and break once `limit` results are collected. -/
def appendItems (limit : Nat) (results : List Json) : List Json → List Json
  | [] => results
  | it :: rest =>
      let results' := results ++ [(it.getKey "path").getD Json.null]
      if limit ≤ results'.length then results' else appendItems limit results' rest

/-- The `for fname in filenames` body of one page of `_search_code_api`:
one search request per candidate filename, in order. -/
def searchRound (w : World) (owner repo : String) (subdir : Option String)
    (limit : Nat) (page : Nat) : List String → List Json → Except PyErr (List Json)
  | [], results => .ok results
  | fname :: rest, results => do
      let resp ← w.searchNet (searchQuery owner repo subdir fname) page
      let items : List Json :=
        match (resp.getKey "items").getD (Json.arr []) with
        | .arr l => l
        | _ => []
      searchRound w owner repo subdir limit page rest (appendItems limit results items)

/-- The `while len(results) < limit and page <= 10` pagination loop. -/
def searchPages (w : World) (owner repo : String) (subdir : Option String)
    (limit : Nat) : List Nat → List Json → Except PyErr (List Json)
  | [], results => .ok results
  | page :: rest, results =>
      if results.length < limit then do
        let results' ← searchRound w owner repo subdir limit page
          (ARM_CANDIDATES ++ BICEP_CANDIDATES) results
        searchPages w owner repo subdir limit rest results'
      else .ok results

/-- The dedupe-by-path suffix of `_search_code_api`, truncating at `limit`. -/
def dedupeTrunc (limit : Nat) (uniq : List Json) : List Json → List Json
  | [] => uniq
  | p :: rest =>
      let uniq' := if uniq.contains p then uniq else uniq ++ [p]
      if limit ≤ uniq'.length then uniq' else dedupeTrunc limit uniq' rest

/-- `_search_code_api`. -/
def search_code_api (w : World) (owner repo : String) (subdir : Option String)
    (limit : Nat) : Except PyErr (List Json) := do
  let results ← searchPages w owner repo subdir limit (List.range' 1 10) []
  .ok (dedupeTrunc limit [] results)

/-- `find_templates`: walk when forced or unauthenticated; otherwise try
the search API and fall back to the walk on `requests.HTTPError` only. -/
def find_templates (w : World) (owner repo : String) (subdir : Option String)
    (limit : Nat) (fuel : Nat) : Except PyErr (List Json) :=
  if w.forceWalk || !w.hasToken then
    walk_contents w owner repo (subdir.getD "") limit fuel
  else
    match search_code_api w owner repo subdir limit with
    | .error (.httpError _ _) => walk_contents w owner repo (subdir.getD "") limit fuel
    | .error e => .error e
    | .ok hits => .ok hits

/-- `f"\x7bqs_dir\x7d/\x7bcandidate\x7d" if qs_dir else candidate` -/
def joinDir (qsDir candidate : String) : String :=
  if qsDir != "" then qsDir ++ "/" ++ candidate else candidate

/-- The ARM acceptance test of `try_fetch_template`, line 173:
`isinstance(content, dict) and (content.get("resources") or
"parameters" in content or "$schema" in content)`.  Note the first
disjunct tests Python truthiness of the value, not key presence. -/
def looksLikeArm (j : Json) : Bool :=
  match j with
  | .obj _ => (j.getKeyD "resources").truthy || j.hasKey "parameters" || j.hasKey "$schema"
  | _ => false

/-- The first `for candidate in ARM_CANDIDATES` loop of `try_fetch_template`. -/
def armPhase (w : World) (owner repo qsDir : String) :
    List String → Except PyErr (Option (Json × String))
  | [] => .ok none
  | c :: rest => do
      let content ← w.fetch owner repo (joinDir qsDir c)
      match content with
      | some (.json j) =>
          if looksLikeArm j then .ok (some (j, c)) else armPhase w owner repo qsDir rest
      | _ => armPhase w owner repo qsDir rest

/-- The second `for candidate in BICEP_CANDIDATES` loop of
`try_fetch_template`: accept any fetched dict containing `_raw`. -/
def bicepPhase (w : World) (owner repo qsDir : String) :
    List String → Except PyErr (Option (Json × String))
  | [] => .ok none
  | c :: rest => do
      let content ← w.fetch owner repo (joinDir qsDir c)
      match content with
      | some (.json j) =>
          if j.hasKey "_raw" then .ok (some (j, c)) else bicepPhase w owner repo qsDir rest
      | _ => bicepPhase w owner repo qsDir rest

/-- `try_fetch_template`; `(None, None)` is modelled as `none`. -/
def try_fetch_template (w : World) (owner repo qsDir : String) :
    Except PyErr (Option (Json × String)) := do
  match ← armPhase w owner repo qsDir ARM_CANDIDATES with
  | some res => .ok (some res)
  | none => bicepPhase w owner repo qsDir BICEP_CANDIDATES

/-- One parsed resource entry, the dict built on line 191: absent fields
are Python `None` (`Json.null`); `dependsOn` is added only when the key
is present; `children` is added only when the nested `resources` value is
a list. -/
structure ResourceEntry where
  type : Json
  name : Json
  apiVersion : Json
  dependsOn : Option Json
  children : Option (List (Json × Json × Json))

/-- `parse_arm_resources`.  A non-list `resources` value is modelled as
the empty list (Python would raise iterating it; no claim depends on
such documents). -/
def parse_arm_resources (arm : Json) : List ResourceEntry :=
  let res : List Json :=
    match (arm.getKey "resources").getD (Json.arr []) with
    | .arr l => l
    | _ => []
  res.map fun r =>
    { type := r.getKeyD "type"
      name := r.getKeyD "name"
      apiVersion := r.getKeyD "apiVersion"
      dependsOn := r.getKey "dependsOn"
      children :=
        match r.getKeyD "resources" with
        | .arr cs => some (cs.map fun c => (c.getKeyD "type", c.getKeyD "name", c.getKeyD "apiVersion"))
        | _ => none }

/-- Strict lexicographic comparison of character lists by code point
(what Python's `<` does on strings).  The library order on `String` is
defined through `String.ltb`, which does not evaluate inside the kernel;
this Boolean mirror of `List.lt` does (see `charsLt_iff`). -/
def charsLt : List Char → List Char → Bool
  | [], [] => false
  | [], _ :: _ => true
  | _ :: _, [] => false
  | a :: as, b :: bs => if a < b then true else if b < a then false else charsLt as bs

/-- Python `s < t` on strings. -/
def pyStrLt (s t : String) : Bool := charsLt s.data t.data

/-- Python `<` on the JSON values that can be compared when `sorted`
runs on the `services` set: strings lexicographically by code point,
numbers and booleans numerically (Python booleans are integers:
`True == 1`, `False == 0`).  A pair Python cannot compare (e.g. string
versus number) raises `TypeError` and crashes the pipeline; such states
are not tracked and the comparison is `false` there.  (A list- or
dict-valued type would already crash earlier, at the set comprehension,
since those are unhashable.) -/
def jsonLtb : Json → Json → Bool
  | .str a, .str b => charsLt a.data b.data
  | .num a, .num b => decide (a < b)
  | .bool a, .bool b => !a && b
  | .bool a, .num b => decide ((if a then (1 : Int) else 0) < b)
  | .num a, .bool b => decide (a < (if b then (1 : Int) else 0))
  | _, _ => false

/-- Python `==` on the same values: structural on decoded JSON, except
that booleans and integers compare numerically (`True == 1`). -/
def jsonEqPy : Json → Json → Bool
  | .bool a, .num b => (if a then (1 : Int) else 0) == b
  | .num a, .bool b => a == (if b then (1 : Int) else 0)
  | a, b => Json.beq a b

/-- Insert a value into a `<`-ascending duplicate-free list, keeping it
so: values already present under Python equality are dropped. -/
def insertSortedJson (x : Json) : List Json → List Json
  | [] => [x]
  | y :: ys =>
      if jsonLtb x y then x :: y :: ys
      else if jsonEqPy x y then y :: ys
      else y :: insertSortedJson x ys

/-- `sorted(set(l))` under Python semantics: elements are added left to
right (so the first-added representative survives deduplication, as in a
Python set) and listed in ascending order. -/
def pySortedSet (l : List Json) : List Json :=
  l.foldl (fun acc x => insertSortedJson x acc) []

/-- `list((arm.get(key) or \x7b\x7d).keys())`: declaration-order keys of a truthy
dict value, `[]` otherwise. -/
def keysOfOr (arm : Json) (key : String) : List String :=
  let v := arm.getKeyD key
  if v.truthy then
    match v with
    | .obj fields => fields.map Prod.fst
    | _ => []
  else []

/-- The final architecture document. -/
structure ArchDoc where
  name : Json
  description : Json
  repo : String
  quickstart_dir : String
  template_file : String
  services : List Json
  resource_count : Nat
  dir_html : String
  template_html : String
  metadata : Json
  arm_parameters_keys : List String
  arm_outputs_keys : List String

/-- `meta = metadata or \x7b\x7d` -/
def metaOf (metadata : Option Json) : Json :=
  match metadata with
  | some m => if m.truthy then m else Json.obj []
  | none => Json.obj []

/-- Python `a or b` on JSON values. -/
def pyOr (a b : Json) : Json := if a.truthy then a else b

/-- `qs_dir.split("/")[-1]` -/
def lastSegment (s : String) : String :=
  (pySplit s "/").getLastD ""

/-- `build_arch_doc`. -/
def build_arch_doc (owner repo qsDir templateFilename : String) (armOrRaw : Json)
    (metadata : Option Json) : ArchDoc :=
  let services : List Json :=
    if armOrRaw.hasKey "_raw" then []
    else pySortedSet (((parse_arm_resources armOrRaw).map ResourceEntry.type).filter Json.truthy)
  let paramsKeys := if armOrRaw.hasKey "_raw" then [] else keysOfOr armOrRaw "parameters"
  let outputsKeys := if armOrRaw.hasKey "_raw" then [] else keysOfOr armOrRaw "outputs"
  let meta := metaOf metadata
  let metaName := pyOr (meta.getKeyD "itemDisplayName")
    (pyOr (meta.getKeyD "title") (meta.getKeyD "name"))
  let description := pyOr (meta.getKeyD "description") (meta.getKeyD "summary")
  let metaName :=
    if !metaName.truthy then
      Json.str (if qsDir != "" then lastSegment qsDir else repo)
    else metaName
  let baseDirUrl :=
    if qsDir != "" then "https://github.com/" ++ owner ++ "/" ++ repo ++ "/tree/master/" ++ qsDir
    else "https://github.com/" ++ owner ++ "/" ++ repo ++ "/tree/master"
  let tmplUrl :=
    if qsDir != "" then baseDirUrl ++ "/" ++ templateFilename
    else "https://github.com/" ++ owner ++ "/" ++ repo ++ "/blob/master/" ++ templateFilename
  { name := metaName
    description := description
    repo := owner ++ "/" ++ repo
    quickstart_dir := if qsDir != "" then qsDir else ""
    template_file := templateFilename
    services := services
    resource_count := services.length
    dir_html := baseDirUrl
    template_html := tmplUrl
    metadata := meta
    arm_parameters_keys := paramsKeys
    arm_outputs_keys := outputsKeys }

/-- `try_fetch_metadata`: the sidecar if it fetches as a dict, else `None`. -/
def try_fetch_metadata (w : World) (owner repo qsDir : String) :
    Except PyErr (Option Json) := do
  let content ← w.fetch owner repo (if qsDir != "" then qsDir ++ "/metadata.json" else "metadata.json")
  match content with
  | some (.json (.obj fields)) => .ok (some (.obj fields))
  | _ => .ok none

/-- `src.split(sep, 1)` -/
def splitOnce (s sep : String) : String × String :=
  match pySplit s sep with
  | [] => (s, "")
  | [x] => (x, "")
  | x :: rest => (x, String.intercalate sep rest)

/-- Parse `"Owner/Repo[:subdir]"` (lines 256-261).  A source without a
`/` would make Python's tuple unpacking raise; it is modelled with an
empty repo component. -/
def parseSource (src : String) : String × String × Option String :=
  let (repoPath, subdir) :=
    if pyContainsChar src ':' then
      let (a, b) := splitOnce src ":"
      (a, some b)
    else (src, none)
  let (owner, repo) := splitOnce repoPath "/"
  (owner, repo, subdir)

/-- The body of the `for it in hits` loop of `fetch_architectures`:
resolve the hit's directory, skip silently when no template validates,
otherwise build and append the document.  The returned flag records
whether `len(docs) >= limit` fired (the early `return docs`). -/
def processHit (w : World) (owner repo : String) (limit : Nat) (docs : List ArchDoc)
    (hit : Json) : Except PyErr (List ArchDoc × Bool) := do
  let path := hit.asStr
  let qsDir := infer_dir_from_path path
  match ← try_fetch_template w owner repo qsDir with
  | none => .ok (docs, false)
  | some (armOrRaw, tmplName) =>
      if !armOrRaw.truthy || tmplName = "" then .ok (docs, false)
      else do
        let meta ← try_fetch_metadata w owner repo qsDir
        let docs' := docs ++ [build_arch_doc owner repo qsDir tmplName armOrRaw meta]
        .ok (docs', limit ≤ docs'.length)

/-- The `for it in hits` loop. -/
def processHits (w : World) (owner repo : String) (limit : Nat) :
    List Json → List ArchDoc → Except PyErr (List ArchDoc × Bool)
  | [], docs => .ok (docs, false)
  | hit :: rest, docs => do
      let (docs', reached) ← processHit w owner repo limit docs hit
      if reached then .ok (docs', true) else processHits w owner repo limit rest docs'

/-- The `for src in sources` loop of `fetch_architectures`; `(parseSource
src).1` is the owner, `.2.1` the repo and `.2.2` the optional subdir. -/
def goSources (w : World) (limit perSource fuel : Nat) :
    List String → List ArchDoc → Except PyErr (List ArchDoc)
  | [], docs => .ok docs
  | src :: rest, docs => do
      let hits ← find_templates w (parseSource src).1 (parseSource src).2.1
        (parseSource src).2.2 perSource fuel
      let (docs', reached) ← processHits w (parseSource src).1 (parseSource src).2.1
        limit hits docs
      if reached then .ok docs' else goSources w limit perSource fuel rest docs'

/-- `fetch_architectures`: the public pipeline entry point. -/
def fetch_architectures (w : World) (limit : Nat) (sources : Option (List String))
    (fuel : Nat) : Except PyErr (List ArchDoc) :=
  let sources :=
    match sources with
    | some l => if !l.isEmpty then l else w.githubSources
    | none => w.githubSources
  let perSource := max 1 (limit / max 1 sources.length)
  goSources w limit perSource fuel sources []

/-- A `requests.Response`: status code, headers, body text, and the
result of `.json()` on the body (`none` when the body is not JSON and
`.json()` would raise). -/
structure HttpResponse where
  status_code : Nat
  headers : List (String × String)
  text : String
  jsonBody : Option Json

/-- Errors raised below `fetch_repo_content`: `httpError` is
`requests.HTTPError` carrying its response; `valueError` is the
`int(reset)` parse failure in the (unreachable) retry branch. -/
inductive HttpErr where
  | httpError (resp : HttpResponse)
  | valueError

/-- The observable outcome of one `gh_get` call: its result, how many
GET requests it issued, and how many seconds it slept. -/
structure GhOutcome where
  result : Except HttpErr HttpResponse
  requests : Nat
  slept : Int

/-- `pat in s` for strings (`pat` non-empty). -/
def strContains (s pat : String) : Bool :=
  (pySplit s pat).length != 1

/-- Case-insensitive-key-free header lookup (`r.headers.get(k)`). -/
def headerLookup : List (String × String) → String → Option String
  | [], _ => none
  | (k, v) :: rest, key => if k = key then some v else headerLookup rest key

/-- `r.raise_for_status()` followed by `return r`. -/
def raiseForStatus (r : HttpResponse) : Except HttpErr HttpResponse :=
  if 400 ≤ r.status_code ∧ r.status_code < 600 then .error (.httpError r) else .ok r

/-- `gh_get`, instrumented with the request and sleep counts.  `net i` is
the response to the `i`-th GET of this call and `now` is `time.time()`.
The translation keeps the source's statement order: the 401/403
diagnostic raise comes first, then the rate-limit check, then
`raise_for_status`. -/
def gh_get (net : Nat → HttpResponse) (now : Int) : GhOutcome :=
  let r := net 0
  if r.status_code = 401 ∨ r.status_code = 403 then
    { result := .error (.httpError r), requests := 1, slept := 0 }
  else if r.status_code = 403 ∧ strContains (pyToLower r.text) "rate limit" then
    match headerLookup r.headers "x-ratelimit-reset" with
    | some reset =>
        if reset != "" then
          match reset.toInt? with
          | none => { result := .error .valueError, requests := 1, slept := 0 }
          | some resetI =>
              let waitS := max 0 (resetI - now) + 1
              { result := raiseForStatus (net 1), requests := 2, slept := waitS }
        else { result := raiseForStatus r, requests := 1, slept := 0 }
    | none => { result := raiseForStatus r, requests := 1, slept := 0 }
  else { result := raiseForStatus r, requests := 1, slept := 0 }

/-- What the `fetch_repo_content` body produces on success. -/
inductive RContent where
  | listing (entries : List Json)
  | value (j : Json)

/-- Errors `fetch_repo_content` can propagate. -/
inductive FetchErr where
  | http (resp : HttpResponse)
  | value
  | jsonDecode

/-- Lines 70-80 of `fetch_repo_content`: directory listings pass through,
base64 file dicts are decoded and parsed (falling back to a
`\x7b"_raw": decoded\x7d` wrapper), anything else is returned as-is.
`b64` stands for `base64.b64decode(.).decode("utf-8", errors="replace")`
and `parse` for `json.loads` (`none` = `JSONDecodeError`). -/
def processData (b64 : String → String) (parse : String → Option Json) (data : Json) :
    RContent :=
  match data with
  | .arr l => .listing l
  | .obj fields =>
      match lookupKv fields "encoding" with
      | some (.str "base64") =>
          let decoded := b64 ((lookupKv fields "content").getD Json.null).asStr
          (match parse decoded with
           | some j => .value j
           | none => .value (Json.obj [("_raw", Json.str decoded)]))
      | _ => .value (Json.obj fields)
  | j => .value j

/-- `fetch_repo_content` down to the HTTP layer: `gh_get`, `.json()`,
content normalisation, and the `except HTTPError` handler that turns a
404 into `None` and re-raises everything else. -/
def fetch_repo_content (net : Nat → HttpResponse) (now : Int)
    (b64 : String → String) (parse : String → Option Json) :
    Except FetchErr (Option RContent) :=
  match (gh_get net now).result with
  | .error (.httpError r) => if r.status_code = 404 then .ok none else .error (.http r)
  | .error .valueError => .error .value
  | .ok r =>
      match r.jsonBody with
      | none => .error .jsonDecode
      | some data => .ok (some (processData b64 parse data))

/-! Concrete remote states used to evaluate the definitions on closed
inputs. -/

/-- A quota-exhausted GitHub response: status 403, rate-limit body, reset
header present. -/
def rateLimitedResp : HttpResponse :=
  ⟨403, [("x-ratelimit-reset", "1999999999")], "API rate limit exceeded for installation.", none⟩

/-- A network that always answers with `rateLimitedResp`. -/
def rateLimitedNet : Nat → HttpResponse := fun _ => rateLimitedResp

/-- A network that always answers 404. -/
def notFoundNet : Nat → HttpResponse :=
  fun _ => ⟨404, [], "Not Found", some (Json.obj [("message", Json.str "Not Found")])⟩

/-- A plain server-error response. -/
def serverErrResp : HttpResponse := ⟨500, [], "Internal Server Error", none⟩

/-- A network that always answers with `serverErrResp`. -/
def serverErrNet : Nat → HttpResponse := fun _ => serverErrResp

/-- A repository with no content at all (walk configuration). -/
def wEmptyRepo : World :=
  ⟨true, false, [], fun _ _ _ => .ok none, fun _ _ => .error .jsonDecodeError⟩

/-- A root directory with a single `azuredeploy.json` file entry. -/
def rootListingFetch : String → String → String → Except PyErr (Option Content) :=
  fun _ _ path =>
    if path = "" then
      .ok (some (.listing [Json.obj
        [("type", Json.str "file"), ("name", Json.str "azuredeploy.json"),
         ("path", Json.str "azuredeploy.json")]]))
    else .ok none

/-- Authenticated world whose search API fails with a JSON decode error. -/
def wSearchJsonErr : World :=
  ⟨false, true, [], rootListingFetch, fun _ _ => .error .jsonDecodeError⟩

/-- Authenticated world whose search API fails with an HTTP error. -/
def wSearchHttpErr : World :=
  ⟨false, true, [], rootListingFetch, fun _ _ => .error (.httpError 403 "Forbidden")⟩

/-- A JSON object that has a `resources` key whose value is empty. -/
def armEmptyRes : Json := Json.obj [("resources", Json.arr [])]

/-- World where `d/azuredeploy.json` fetches as `armEmptyRes`. -/
def wC4 : World :=
  ⟨true, false, [],
    fun _ _ path => if path = "d/azuredeploy.json" then .ok (some (.json armEmptyRes)) else .ok none,
    fun _ _ => .error .jsonDecodeError⟩

/-- An ARM document with one declared resource. -/
def armOneRes : Json :=
  Json.obj [("resources", Json.arr [Json.obj [("type", Json.str "Microsoft.Web/sites")]])]

/-- World where `d/azuredeploy.json` fetches as `armOneRes`. -/
def wC4b : World :=
  ⟨true, false, [],
    fun _ _ path => if path = "d/azuredeploy.json" then .ok (some (.json armOneRes)) else .ok none,
    fun _ _ => .error .jsonDecodeError⟩

/-- Raw Bicep text. -/
def bicepRawText : String := "param location string"

/-- The wrapper `fetch_repo_content` builds for non-JSON file bodies. -/
def bicepWrapped : Json := Json.obj [("_raw", Json.str bicepRawText)]

/-- A repository whose only template content is `d/main.bicep`. -/
def wC5 : World :=
  ⟨true, false, [],
    fun _ _ path =>
      if path = "" then
        .ok (some (.listing [Json.obj [("type", Json.str "dir"), ("path", Json.str "d")]]))
      else if path = "d" then
        .ok (some (.listing [Json.obj
          [("type", Json.str "file"), ("name", Json.str "main.bicep"),
           ("path", Json.str "d/main.bicep")]]))
      else if path = "d/main.bicep" then .ok (some (.json bicepWrapped))
      else .ok none,
    fun _ _ => .error .jsonDecodeError⟩

/-- The document the pipeline builds from `wC5`. -/
def docC5 : ArchDoc := build_arch_doc "o" "r" "d" "main.bicep" bicepWrapped none

/-- An ARM document whose single resource has the empty string as type. -/
def armEmptyTypeStr : Json :=
  Json.obj [("resources", Json.arr [Json.obj [("type", Json.str "")]])]

/-- The ARM document of testable property P4: two distinct types, one
repeated. -/
def armTwoTypes : Json :=
  Json.obj [("resources", Json.arr
    [Json.obj [("type", Json.str "Microsoft.Storage/storageAccounts")],
     Json.obj [("type", Json.str "Microsoft.Network/vnets")],
     Json.obj [("type", Json.str "Microsoft.Storage/storageAccounts")]])]

/-- An ARM document whose single resource has a numeric type value: a
truthy non-string, which Python keeps in `services` (`sorted(\x7b5\x7d)` does
not raise). -/
def armNumType : Json :=
  Json.obj [("resources", Json.arr [Json.obj [("type", Json.num 5)]])]

/-- Two-repo world: repo `empty` has nothing, repo `rich` exposes four
quickstart directories, each with a valid `azuredeploy.json`. -/
def wC7 : World :=
  ⟨true, false, [],
    fun _ repo path =>
      if repo = "rich" then
        if path = "" then
          .ok (some (.listing [
            Json.obj [("type", Json.str "file"), ("name", Json.str "azuredeploy.json"),
                      ("path", Json.str "t1/azuredeploy.json")],
            Json.obj [("type", Json.str "file"), ("name", Json.str "azuredeploy.json"),
                      ("path", Json.str "t2/azuredeploy.json")],
            Json.obj [("type", Json.str "file"), ("name", Json.str "azuredeploy.json"),
                      ("path", Json.str "t3/azuredeploy.json")],
            Json.obj [("type", Json.str "file"), ("name", Json.str "azuredeploy.json"),
                      ("path", Json.str "t4/azuredeploy.json")]]))
        else if path = "t1/azuredeploy.json" ∨ path = "t2/azuredeploy.json"
            ∨ path = "t3/azuredeploy.json" ∨ path = "t4/azuredeploy.json" then
          .ok (some (.json armOneRes))
        else .ok none
      else .ok none,
    fun _ _ => .error .jsonDecodeError⟩

/-- The pipeline output for `wC7` with limit 4 over both repos. -/
def docsC7 : List ArchDoc :=
  [build_arch_doc "o" "rich" "t1" "azuredeploy.json" armOneRes none,
   build_arch_doc "o" "rich" "t2" "azuredeploy.json" armOneRes none]

/-- Sidecar metadata with a title but no itemDisplayName. -/
def metaTitleOnly : Json := Json.obj [("title", Json.str "My App")]

/-- One declared resource, Storage. -/
def armC10 : Json :=
  Json.obj [("resources", Json.arr
    [Json.obj [("type", Json.str "Microsoft.Storage/storageAccounts")]])]

/-- A quickstart directory `q/d` holding both `azuredeploy.json` and
`main.json`, both discoverable by the walk. -/
def wC10 : World :=
  ⟨true, false, [],
    fun _ _ path =>
      if path = "q" then
        .ok (some (.listing [Json.obj [("type", Json.str "dir"), ("path", Json.str "q/d")]]))
      else if path = "q/d" then
        .ok (some (.listing [
          Json.obj [("type", Json.str "file"), ("name", Json.str "azuredeploy.json"),
                    ("path", Json.str "q/d/azuredeploy.json")],
          Json.obj [("type", Json.str "file"), ("name", Json.str "main.json"),
                    ("path", Json.str "q/d/main.json")]]))
      else if path = "q/d/azuredeploy.json" then .ok (some (.json armC10))
      else .ok none,
    fun _ _ => .error .jsonDecodeError⟩

/-- The document both hits of `wC10` resolve to. -/
def docC10 : ArchDoc := build_arch_doc "o" "r" "q/d" "azuredeploy.json" armC10 none

/-!  Theorems. -/

/-- Claim C1: the spec says a rate-limited response makes `gh_get` sleep
until the reset time from the headers and retry once.  The code cannot:
the 401/403 diagnostic raise on line 52 precedes the rate-limit check on
line 55, so every call issues exactly one request and never sleeps; in
particular a 403 quota-exhaustion response with a reset header raises
immediately. -/
theorem gh_get_never_sleeps_or_retries :
    (∀ (net : Nat → HttpResponse) (now : Int),
      (gh_get net now).requests = 1 ∧ (gh_get net now).slept = 0) ∧
    gh_get rateLimitedNet 0 = ⟨.error (.httpError rateLimitedResp), 1, 0⟩ := by
  refine ⟨fun net now => ?_, rfl⟩
  unfold gh_get
  by_cases h1 : (net 0).status_code = 401 ∨ (net 0).status_code = 403
  · simp [h1]
  · have h2 : ¬((net 0).status_code = 403 ∧
        strContains (pyToLower (net 0).text) "rate limit" = true) :=
      fun hc => h1 (Or.inr hc.1)
    simp [h1, h2]

/-- Claim C3, counterexample: an error that is not a `requests.HTTPError`
(here a JSON decode failure of the search response) is not caught by
`find_templates`: it propagates, while a direct walk of the same world
succeeds. -/
theorem find_templates_json_error_not_caught :
    find_templates wSearchJsonErr "o" "r" none 5 10 = .error .jsonDecodeError ∧
    walk_contents wSearchJsonErr "o" "r" "" 5 10 = .ok [Json.str "azuredeploy.json"] ∧
    (Except.error PyErr.jsonDecodeError
      ≠ (Except.ok [Json.str "azuredeploy.json"] : Except PyErr (List Json))) :=
  ⟨rfl, rfl, fun h => Except.noConfusion h⟩

/-- Claim C3, amended: only `requests.HTTPError` raised by the search
strategy triggers the transparent fallback; in that case the locator
returns exactly the walk strategy's result for the same arguments. -/
theorem find_templates_http_fallback (w : World) (owner repo : String)
    (subdir : Option String) (limit fuel : Nat) (status : Nat) (body : String)
    (hfw : w.forceWalk = false) (htk : w.hasToken = true)
    (hs : search_code_api w owner repo subdir limit = .error (.httpError status body)) :
    find_templates w owner repo subdir limit fuel
      = walk_contents w owner repo (subdir.getD "") limit fuel := by
  simp [find_templates, hfw, htk, hs]

theorem find_templates_http_fallback_witness :
    find_templates wSearchHttpErr "o" "r" none 5 10
      = walk_contents wSearchHttpErr "o" "r" "" 5 10 :=
  find_templates_http_fallback wSearchHttpErr "o" "r" none 5 10 403 "Forbidden" rfl rfl rfl

/-- Claim C8: a 404 from the contents API comes back as a null result,
while every other failure status (4xx/5xx) propagates as an error
carrying the response. -/
theorem fetch_repo_content_status_routing (net : Nat → HttpResponse) (now : Int)
    (b64 : String → String) (parse : String → Option Json) :
    ((net 0).status_code = 404 → fetch_repo_content net now b64 parse = .ok none) ∧
    (400 ≤ (net 0).status_code → (net 0).status_code < 600 → (net 0).status_code ≠ 404 →
      fetch_repo_content net now b64 parse = .error (.http (net 0))) := by
  constructor
  · intro h404
    have h1 : ¬((net 0).status_code = 401 ∨ (net 0).status_code = 403) := by omega
    have h2 : ¬((net 0).status_code = 403 ∧
        strContains (pyToLower (net 0).text) "rate limit" = true) :=
      fun hc => h1 (Or.inr hc.1)
    unfold fetch_repo_content gh_get raiseForStatus
    simp [h1, h2, h404]
  · intro hge hlt hne
    by_cases h1 : (net 0).status_code = 401 ∨ (net 0).status_code = 403
    · unfold fetch_repo_content gh_get
      simp [h1, hne]
    · have h2 : ¬((net 0).status_code = 403 ∧
          strContains (pyToLower (net 0).text) "rate limit" = true) :=
        fun hc => h1 (Or.inr hc.1)
      unfold fetch_repo_content gh_get raiseForStatus
      simp [h1, h2, hne, hge, hlt]

theorem fetch_repo_content_status_routing_witness :
    fetch_repo_content notFoundNet 0 (fun s => s) (fun _ => none) = .ok none ∧
    fetch_repo_content serverErrNet 0 (fun s => s) (fun _ => none)
      = .error (.http serverErrResp) :=
  ⟨(fetch_repo_content_status_routing notFoundNet 0 (fun s => s) (fun _ => none)).1 rfl,
   (fetch_repo_content_status_routing serverErrNet 0 (fun s => s) (fun _ => none)).2
     (by decide) (by decide) (by decide)⟩

/-- Claim C10: hits are not deduplicated by containing directory.  In
`wC10` the directory `q/d` holds both `azuredeploy.json` and `main.json`;
with limit 2 the pipeline returns two documents with the same natural key
`(repo, quickstart_dir, template_file)` because both hits resolve to the
same highest-priority file. -/
theorem fetch_architectures_duplicate_natural_key :
    fetch_architectures wC10 2 (some ["o/r:q"]) 10 = .ok [docC10, docC10] ∧
    docC10.repo = "o/r" ∧ docC10.quickstart_dir = "q/d" ∧
    docC10.template_file = "azuredeploy.json" :=
  ⟨rfl, rfl, rfl, rfl⟩

/-- A successful `processHit` either keeps the accumulator (skip path) or
appends exactly one document; the early-return flag is exactly
`limit ≤ len` after the append and is never raised on the skip path. -/
theorem processHit_shape (w : World) (owner repo : String) (limit : Nat)
    (docs : List ArchDoc) (hit : Json) (docs' : List ArchDoc) (b : Bool)
    (h : processHit w owner repo limit docs hit = .ok (docs', b)) :
    (docs' = docs ∧ b = false) ∨
    (docs'.length = docs.length + 1 ∧ b = decide (limit ≤ docs'.length)) := by
  unfold processHit at h
  simp only [] at h
  rcases htf : try_fetch_template w owner repo (infer_dir_from_path hit.asStr) with e | res
  · rw [htf] at h
    exact absurd h (by simp [Bind.bind, Except.bind])
  · rw [htf] at h
    simp only [Bind.bind, Except.bind] at h
    match res with
    | none =>
        simp only [Except.ok.injEq, Prod.mk.injEq] at h
        exact Or.inl ⟨h.1.symm, h.2.symm⟩
    | some (arm, tname) =>
        simp only [] at h
        by_cases hskip : (!arm.truthy || decide (tname = "")) = true
        · rw [if_pos hskip] at h
          simp only [Except.ok.injEq, Prod.mk.injEq] at h
          exact Or.inl ⟨h.1.symm, h.2.symm⟩
        · rw [if_neg hskip] at h
          rcases hm : try_fetch_metadata w owner repo (infer_dir_from_path hit.asStr) with e | m
          · rw [hm] at h
            exact absurd h (by simp [Bind.bind, Except.bind])
          · rw [hm] at h
            simp only [Bind.bind, Except.bind, Except.ok.injEq, Prod.mk.injEq] at h
            obtain ⟨h1, h2⟩ := h
            subst h1
            exact Or.inr ⟨by simp, h2.symm⟩

/-- While the accumulator is strictly below `limit`, `processHits` keeps
it at or below `limit`, strictly below unless the early-return fired. -/
theorem processHits_le (w : World) (owner repo : String) (limit : Nat) :
    ∀ (hits : List Json) (docs docs' : List ArchDoc) (b : Bool),
    docs.length < limit →
    processHits w owner repo limit hits docs = .ok (docs', b) →
    docs'.length ≤ limit ∧ (b = false → docs'.length < limit)
  | [], docs, docs', b, hlt, h => by
      simp only [processHits, Except.ok.injEq, Prod.mk.injEq] at h
      exact ⟨h.1 ▸ Nat.le_of_lt hlt, fun _ => h.1 ▸ hlt⟩
  | hit :: rest, docs, docs', b, hlt, h => by
      unfold processHits at h
      rcases hph : processHit w owner repo limit docs hit with e | p
      · rw [hph] at h
        exact absurd h (by simp [Bind.bind, Except.bind])
      · rw [hph] at h
        simp only [Bind.bind, Except.bind] at h
        obtain ⟨d1, r1⟩ := p
        simp only [] at h
        have hshape := processHit_shape w owner repo limit docs hit d1 r1 hph
        rcases r1 with _ | _
        · rw [if_neg (by simp)] at h
          have hlt1 : d1.length < limit := by
            rcases hshape with ⟨hd, _⟩ | ⟨hd, hr⟩
            · rw [hd]; exact hlt
            · have := of_decide_eq_false hr.symm
              omega
          exact processHits_le w owner repo limit rest d1 docs' b hlt1 h
        · rw [if_pos rfl] at h
          simp only [Except.ok.injEq, Prod.mk.injEq] at h
          have hlen : docs'.length ≤ limit := by
            rcases hshape with ⟨_, hr⟩ | ⟨hd, _⟩
            · exact absurd hr (by simp)
            · rw [← h.1]
              omega
          exact ⟨hlen, fun hb => absurd (hb ▸ h.2) (by simp)⟩

/-- While the accumulator is strictly below `limit`, the source loop
keeps the output at or below `limit`. -/
theorem goSources_le (w : World) (limit per fuel : Nat) :
    ∀ (srcs : List String) (docs docs' : List ArchDoc),
    docs.length < limit →
    goSources w limit per fuel srcs docs = .ok docs' →
    docs'.length ≤ limit
  | [], docs, docs', hlt, h => by
      simp only [goSources, Except.ok.injEq] at h
      exact h ▸ Nat.le_of_lt hlt
  | src :: rest, docs, docs', hlt, h => by
      unfold goSources at h
      rcases hft : find_templates w (parseSource src).1 (parseSource src).2.1
          (parseSource src).2.2 per fuel with e | hits
      · rw [hft] at h
        exact absurd h (by simp [Bind.bind, Except.bind])
      · rw [hft] at h
        simp only [Bind.bind, Except.bind] at h
        rcases hph : processHits w (parseSource src).1 (parseSource src).2.1 limit hits docs
          with e | p
        · rw [hph] at h
          exact absurd h (by simp)
        · rw [hph] at h
          obtain ⟨d1, r1⟩ := p
          simp only [] at h
          have hle := processHits_le w (parseSource src).1 (parseSource src).2.1 limit
            hits docs d1 r1 hlt hph
          rcases r1 with _ | _
          · rw [if_neg (by simp)] at h
            exact goSources_le w limit per fuel rest d1 docs' (hle.2 rfl) h
          · rw [if_pos rfl] at h
            simp only [Except.ok.injEq] at h
            exact h ▸ hle.1

/-- Claim C2: for every limit at least 1 and any source list (including
the configured default), a successful pipeline run returns at most
`limit` documents; the early `return docs` enforces the bound even
mid-source. -/
theorem fetch_architectures_bounded (w : World) (limit : Nat)
    (sources : Option (List String)) (fuel : Nat) (docs : List ArchDoc)
    (hlim : 1 ≤ limit)
    (hrun : fetch_architectures w limit sources fuel = .ok docs) :
    docs.length ≤ limit := by
  unfold fetch_architectures at hrun
  exact goSources_le w limit _ fuel _ [] docs (by simpa using hlim) hrun

theorem fetch_architectures_bounded_witness :
    1 ≤ 1 ∧ ([] : List ArchDoc).length ≤ 1 :=
  ⟨by decide,
    fetch_architectures_bounded wEmptyRepo 1 (some ["a/b"]) 3 [] (by decide) rfl⟩

/-- While below `limit`, one listing round of the walk keeps the hit
count at or below `limit` (each append is followed by the break check). -/
theorem walkEntries_le (limit : Nat) :
    ∀ (entries : List Json) (queue : List String) (hits : List Json),
    hits.length < limit → ((walkEntries limit queue hits entries).2).length ≤ limit
  | [], _, _, hlt => Nat.le_of_lt hlt
  | it :: rest, queue, hits, hlt => by
      unfold walkEntries
      split
      · exact walkEntries_le limit rest _ hits hlt
      · split
        · split
          · simp only []
            split
            · simp only [List.length_append, List.length_cons, List.length_nil]
              omega
            · rename_i hnot
              refine walkEntries_le limit rest queue _ ?_
              simp only [not_le] at hnot
              exact hnot
          · exact walkEntries_le limit rest queue hits hlt
        · exact walkEntries_le limit rest queue hits hlt
      · exact walkEntries_le limit rest queue hits hlt

/-- The walk loop never returns more than `limit` hits. -/
theorem walkLoop_le (w : World) (owner repo : String) (limit : Nat) :
    ∀ (fuel : Nat) (queue : List String) (hits res : List Json),
    hits.length ≤ limit →
    walkLoop w owner repo limit fuel queue hits = .ok res →
    res.length ≤ limit
  | 0, _, _, _, _, h => absurd h (by simp [walkLoop])
  | _ + 1, [], hits, res, hle, h => by
      simp only [walkLoop, Except.ok.injEq] at h
      exact h ▸ hle
  | fuel + 1, cur :: qrest, hits, res, hle, h => by
      unfold walkLoop at h
      by_cases hlt : hits.length < limit
      · rw [if_pos hlt] at h
        rcases hf : w.fetch owner repo cur with e | fetched
        · rw [hf] at h
          exact absurd h (by simp [Bind.bind, Except.bind])
        · rw [hf] at h
          simp only [Bind.bind, Except.bind] at h
          exact walkLoop_le w owner repo limit fuel _ _ res
            (walkEntries_le limit _ qrest hits hlt) h
      · rw [if_neg hlt] at h
        simp only [Except.ok.injEq] at h
        exact h ▸ hle

/-- `_walk_contents` returns at most `limit` hits. -/
theorem walk_contents_le (w : World) (owner repo root : String) (limit fuel : Nat)
    (res : List Json) (h : walk_contents w owner repo root limit fuel = .ok res) :
    res.length ≤ limit :=
  walkLoop_le w owner repo limit fuel _ [] res (Nat.zero_le _) h

/-- While below `limit`, the dedupe loop truncates at `limit`. -/
theorem dedupeTrunc_le (limit : Nat) :
    ∀ (l uniq : List Json), uniq.length < limit →
    (dedupeTrunc limit uniq l).length ≤ limit
  | [], _, hlt => Nat.le_of_lt hlt
  | p :: rest, uniq, hlt => by
      unfold dedupeTrunc
      simp only []
      by_cases hc : uniq.contains p = true
      · rw [if_pos hc, if_neg (by omega : ¬ limit ≤ uniq.length)]
        exact dedupeTrunc_le limit rest uniq hlt
      · rw [if_neg hc]
        by_cases hl : limit ≤ (uniq ++ [p]).length
        · rw [if_pos hl]
          simp only [List.length_append, List.length_cons, List.length_nil]
          omega
        · rw [if_neg hl]
          refine dedupeTrunc_le limit rest _ ?_
          simp only [not_le] at hl
          exact hl

/-- `_search_code_api` returns at most `limit` hits (for positive limit). -/
theorem search_code_api_le (w : World) (owner repo : String) (subdir : Option String)
    (limit : Nat) (hits : List Json) (hpos : 0 < limit)
    (h : search_code_api w owner repo subdir limit = .ok hits) : hits.length ≤ limit := by
  unfold search_code_api at h
  rcases hsp : searchPages w owner repo subdir limit (List.range' 1 10) [] with e | results
  · rw [hsp] at h
    exact absurd h (by simp [Bind.bind, Except.bind])
  · rw [hsp] at h
    simp only [Bind.bind, Except.bind, Except.ok.injEq] at h
    rw [← h]
    exact dedupeTrunc_le limit results [] (by simpa using hpos)

/-- The locator honours its limit, whichever strategy ran. -/
theorem find_templates_le (w : World) (owner repo : String) (subdir : Option String)
    (limit fuel : Nat) (hits : List Json) (hpos : 0 < limit)
    (h : find_templates w owner repo subdir limit fuel = .ok hits) : hits.length ≤ limit := by
  unfold find_templates at h
  by_cases hcfg : (w.forceWalk || !w.hasToken) = true
  · rw [if_pos hcfg] at h
    exact walk_contents_le w owner repo _ limit fuel hits h
  · rw [if_neg hcfg] at h
    rcases hs : search_code_api w owner repo subdir limit with e | shits
    · rw [hs] at h
      match e with
      | .httpError st body => exact walk_contents_le w owner repo _ limit fuel hits h
      | .jsonDecodeError => exact absurd h (by simp)
      | .outOfFuel => exact absurd h (by simp)
    · rw [hs] at h
      simp only [Except.ok.injEq] at h
      exact h ▸ search_code_api_le w owner repo subdir limit shits hpos hs

/-- Processing a hit list grows the accumulator by at most one document
per hit, and never shrinks it. -/
theorem processHits_add (w : World) (owner repo : String) (limit : Nat) :
    ∀ (hits : List Json) (docs docs' : List ArchDoc) (b : Bool),
    processHits w owner repo limit hits docs = .ok (docs', b) →
    docs.length ≤ docs'.length ∧ docs'.length ≤ docs.length + hits.length
  | [], docs, docs', b, h => by
      simp only [processHits, Except.ok.injEq, Prod.mk.injEq] at h
      obtain ⟨h1, _⟩ := h
      subst h1
      exact ⟨Nat.le_refl _, by simp⟩
  | hit :: rest, docs, docs', b, h => by
      unfold processHits at h
      rcases hph : processHit w owner repo limit docs hit with e | p
      · rw [hph] at h
        exact absurd h (by simp [Bind.bind, Except.bind])
      · rw [hph] at h
        simp only [Bind.bind, Except.bind] at h
        obtain ⟨d1, r1⟩ := p
        simp only [] at h
        have hd1 : docs.length ≤ d1.length ∧ d1.length ≤ docs.length + 1 := by
          rcases processHit_shape w owner repo limit docs hit d1 r1 hph with ⟨hd, _⟩ | ⟨hd, _⟩
          · subst hd
            exact ⟨Nat.le_refl _, by omega⟩
          · omega
        rcases r1 with _ | _
        · rw [if_neg (by simp)] at h
          have hrec := processHits_add w owner repo limit rest d1 docs' b h
          simp only [List.length_cons]
          omega
        · rw [if_pos rfl] at h
          simp only [Except.ok.injEq, Prod.mk.injEq] at h
          obtain ⟨h1, _⟩ := h
          subst h1
          simp only [List.length_cons]
          omega

/-- Per-source accounting for the source loop: when every locator call is
capped by `per`, each source contributes at most `per` documents, and a
fired early-return leaves all later sources at zero. -/
theorem goSources_counts (w : World) (limit per fuel : Nat) (hper : 1 ≤ per) :
    ∀ (srcs : List String) (docs final : List ArchDoc),
    goSources w limit per fuel srcs docs = .ok final →
    ∃ counts : List Nat, counts.length = srcs.length ∧
      final.length = docs.length + counts.sum ∧ ∀ c ∈ counts, c ≤ per
  | [], docs, final, h => by
      simp only [goSources, Except.ok.injEq] at h
      exact ⟨[], rfl, by simp [h], by simp⟩
  | src :: rest, docs, final, h => by
      unfold goSources at h
      rcases hft : find_templates w (parseSource src).1 (parseSource src).2.1
          (parseSource src).2.2 per fuel with e | hits
      · rw [hft] at h
        exact absurd h (by simp [Bind.bind, Except.bind])
      · rw [hft] at h
        simp only [Bind.bind, Except.bind] at h
        rcases hph : processHits w (parseSource src).1 (parseSource src).2.1 limit hits docs
          with e | p
        · rw [hph] at h
          exact absurd h (by simp)
        · rw [hph] at h
          obtain ⟨d1, r1⟩ := p
          simp only [] at h
          have hhits : hits.length ≤ per :=
            find_templates_le w (parseSource src).1 (parseSource src).2.1
              (parseSource src).2.2 per fuel hits (by omega) hft
          have hadd := processHits_add w (parseSource src).1 (parseSource src).2.1 limit
            hits docs d1 r1 hph
          rcases r1 with _ | _
          · rw [if_neg (by simp)] at h
            obtain ⟨counts, hc1, hc2, hc3⟩ :=
              goSources_counts w limit per fuel hper rest d1 final h
            refine ⟨(d1.length - docs.length) :: counts, by simp [hc1], by
              simp only [List.sum_cons]; omega, ?_⟩
            intro c hc
            rcases List.mem_cons.mp hc with hc | hc
            · subst hc; omega
            · exact hc3 c hc
          · rw [if_pos rfl] at h
            simp only [Except.ok.injEq] at h
            subst h
            refine ⟨(d1.length - docs.length) :: List.replicate rest.length 0,
              by simp, ?_, ?_⟩
            · have hz : (List.replicate rest.length (0 : Nat)).sum = 0 := by simp
              simp only [List.sum_cons, hz]
              omega
            · intro c hc
              rcases List.mem_cons.mp hc with hc | hc
              · subst hc; omega
              · rw [List.eq_of_mem_replicate hc]
                omega

/-- Claim C7: for a non-empty source list the per-source quota is
`max 1 (limit / numberOfSources)` with floor division, computed once: the
run equals the source loop with that constant quota (no redistribution),
and there is a per-source breakdown in which every source contributes at
most the quota. -/
theorem per_source_apportionment (w : World) (limit fuel : Nat) (sources : List String)
    (docs : List ArchDoc) (hne : sources ≠ [])
    (hrun : fetch_architectures w limit (some sources) fuel = .ok docs) :
    fetch_architectures w limit (some sources) fuel
        = goSources w limit (max 1 (limit / sources.length)) fuel sources [] ∧
    ∃ counts : List Nat, counts.length = sources.length ∧
      docs.length = counts.sum ∧ ∀ c ∈ counts, c ≤ max 1 (limit / sources.length) := by
  have hpos : 0 < sources.length := List.length_pos.mpr hne
  have hmax : max 1 sources.length = sources.length := Nat.max_eq_right hpos
  have hie : sources.isEmpty = false := by
    cases sources with
    | nil => exact absurd rfl hne
    | cons a l => rfl
  have heq : fetch_architectures w limit (some sources) fuel
      = goSources w limit (max 1 (limit / sources.length)) fuel sources [] := by
    unfold fetch_architectures
    simp only [hie, Bool.not_false, if_true, hmax]
  refine ⟨heq, ?_⟩
  obtain ⟨counts, h1, h2, h3⟩ :=
    goSources_counts w limit (max 1 (limit / sources.length)) fuel
      (Nat.le_max_left 1 _) sources [] docs (heq ▸ hrun)
  exact ⟨counts, h1, by simpa using h2, h3⟩

/-- Claim C4, counterexample: a fetched JSON object that has a
`resources` key with an empty (falsy) value, and neither `parameters` nor
`$schema`, is rejected by the resolver — the acceptance test is
truthiness of the `resources` value, not key presence. -/
theorem try_fetch_template_rejects_empty_resources :
    try_fetch_template wC4 "o" "r" "d" = .ok none ∧
    wC4.fetch "o" "r" "d/azuredeploy.json" = .ok (some (.json armEmptyRes)) ∧
    armEmptyRes.hasKey "resources" = true :=
  ⟨rfl, rfl, rfl⟩

/-- `looksLikeArm` spelt out: a truthy `resources` value, or a
`parameters` key, or a `$schema` key (all three imply the value is a
JSON object). -/
theorem looksLikeArm_iff (j : Json) :
    looksLikeArm j = true ↔
      ((j.getKeyD "resources").truthy = true ∨ j.hasKey "parameters" = true ∨
        j.hasKey "$schema" = true) := by
  cases j <;>
    simp [looksLikeArm, Json.getKeyD, Json.getKey, Json.hasKey, Json.truthy, Bool.or_eq_true]
  exact or_assoc

/-- No filename is both an ARM and a Bicep candidate. -/
theorem arm_bicep_disjoint (c : String) (h1 : c ∈ ARM_CANDIDATES)
    (h2 : c ∈ BICEP_CANDIDATES) : False := by
  simp only [ARM_CANDIDATES, List.mem_cons, List.mem_singleton, List.not_mem_nil] at h1
  rcases h1 with rfl | rfl | rfl | h1
  · exact absurd h2 (by decide)
  · exact absurd h2 (by decide)
  · exact absurd h2 (by decide)
  · exact h1

/-- Soundness of the ARM loop: a hit comes from a successful fetch of an
accepted JSON object, and every earlier candidate in the priority list
fetched no accepted object. -/
theorem armPhase_sound (w : World) (owner repo dir : String) :
    ∀ (cs : List String) (j : Json) (c : String),
    armPhase w owner repo dir cs = .ok (some (j, c)) →
    w.fetch owner repo (joinDir dir c) = .ok (some (.json j)) ∧ looksLikeArm j = true ∧
    ∃ pre post, pre ++ c :: post = cs ∧
      ∀ c' ∈ pre, ∀ j', w.fetch owner repo (joinDir dir c') = .ok (some (.json j')) →
        looksLikeArm j' = false
  | [], j, c, h => absurd h (by simp [armPhase])
  | c0 :: rest, j, c, h => by
      unfold armPhase at h
      rcases hf : w.fetch owner repo (joinDir dir c0) with e | content
      · rw [hf] at h
        exact absurd h (by simp [Bind.bind, Except.bind])
      · rw [hf] at h
        simp only [Bind.bind, Except.bind] at h
        rcases content with _ | cj
        · obtain ⟨hfj, hla, pre, post, hsplit, hpre⟩ := armPhase_sound w owner repo dir rest j c h
          refine ⟨hfj, hla, c0 :: pre, post, by rw [List.cons_append, hsplit], ?_⟩
          intro c' hc' j' hf'
          rcases List.mem_cons.mp hc' with rfl | hc'
          · rw [hf] at hf'
            exact absurd hf' (by simp)
          · exact hpre c' hc' j' hf'
        · rcases cj with entries | jv
          · obtain ⟨hfj, hla, pre, post, hsplit, hpre⟩ :=
              armPhase_sound w owner repo dir rest j c h
            refine ⟨hfj, hla, c0 :: pre, post, by rw [List.cons_append, hsplit], ?_⟩
            intro c' hc' j' hf'
            rcases List.mem_cons.mp hc' with rfl | hc'
            · rw [hf] at hf'
              exact absurd hf' (by simp)
            · exact hpre c' hc' j' hf'
          · simp only [] at h
            by_cases hla : looksLikeArm jv = true
            · rw [if_pos hla] at h
              simp only [Except.ok.injEq, Option.some.injEq, Prod.mk.injEq] at h
              obtain ⟨hj, hc⟩ := h
              subst hj
              subst hc
              exact ⟨hf, hla, [], rest, rfl, by simp⟩
            · rw [if_neg hla] at h
              obtain ⟨hfj, hla', pre, post, hsplit, hpre⟩ :=
                armPhase_sound w owner repo dir rest j c h
              refine ⟨hfj, hla', c0 :: pre, post, by rw [List.cons_append, hsplit], ?_⟩
              intro c' hc' j' hf'
              rcases List.mem_cons.mp hc' with rfl | hc'
              · rw [hf] at hf'
                simp only [Except.ok.injEq, Option.some.injEq, Content.json.injEq] at hf'
                subst hf'
                simpa using hla
              · exact hpre c' hc' j' hf'

/-- The Bicep loop only returns candidates from its own list. -/
theorem bicepPhase_mem (w : World) (owner repo dir : String) :
    ∀ (cs : List String) (j : Json) (c : String),
    bicepPhase w owner repo dir cs = .ok (some (j, c)) → c ∈ cs
  | [], _, _, h => absurd h (by simp [bicepPhase])
  | c0 :: rest, j, c, h => by
      unfold bicepPhase at h
      rcases hf : w.fetch owner repo (joinDir dir c0) with e | content
      · rw [hf] at h
        exact absurd h (by simp [Bind.bind, Except.bind])
      · rw [hf] at h
        simp only [Bind.bind, Except.bind] at h
        rcases content with _ | cj
        · exact List.mem_cons_of_mem c0 (bicepPhase_mem w owner repo dir rest j c h)
        · rcases cj with entries | jv
          · exact List.mem_cons_of_mem c0 (bicepPhase_mem w owner repo dir rest j c h)
          · simp only [] at h
            by_cases hr : jv.hasKey "_raw" = true
            · rw [if_pos hr] at h
              simp only [Except.ok.injEq, Option.some.injEq, Prod.mk.injEq] at h
              exact h.2 ▸ List.mem_cons_self c0 rest
            · rw [if_neg hr] at h
              exact List.mem_cons_of_mem c0 (bicepPhase_mem w owner repo dir rest j c h)

/-- Claim C4, amended: the resolver tries `azuredeploy.json`,
`main.json`, `template.json` in that fixed order and accepts the first
fetched JSON object with a truthy `resources` value, a `parameters` key,
or a `$schema` key; in particular a fetched object with a truthy
`resources` value in the top-priority file is accepted regardless of the
other two keys.  (An object whose `resources` value is empty or null and
which lacks the other two keys is rejected.) -/
theorem try_fetch_template_arm_priority :
    (∀ (w : World) (owner repo dir : String) (j : Json) (c : String),
      try_fetch_template w owner repo dir = .ok (some (j, c)) → c ∈ ARM_CANDIDATES →
      w.fetch owner repo (joinDir dir c) = .ok (some (.json j)) ∧
      ((j.getKeyD "resources").truthy = true ∨ j.hasKey "parameters" = true ∨
        j.hasKey "$schema" = true) ∧
      ∃ pre post, pre ++ c :: post = ARM_CANDIDATES ∧
        ∀ c' ∈ pre, ∀ j', w.fetch owner repo (joinDir dir c') = .ok (some (.json j')) →
          looksLikeArm j' = false) ∧
    (∀ (w : World) (owner repo dir : String) (j : Json),
      w.fetch owner repo (joinDir dir "azuredeploy.json") = .ok (some (.json j)) →
      (j.getKeyD "resources").truthy = true →
      try_fetch_template w owner repo dir = .ok (some (j, "azuredeploy.json"))) := by
  constructor
  · intro w owner repo dir j c h hc
    unfold try_fetch_template at h
    rcases harm : armPhase w owner repo dir ARM_CANDIDATES with e | r
    · rw [harm] at h
      exact absurd h (by simp [Bind.bind, Except.bind])
    · rw [harm] at h
      simp only [Bind.bind, Except.bind] at h
      rcases r with _ | p
      · simp only [] at h
        exact absurd (bicepPhase_mem w owner repo dir BICEP_CANDIDATES j c h)
          (fun hb => arm_bicep_disjoint c hc hb)
      · obtain ⟨j0, c0⟩ := p
        simp only [Except.ok.injEq, Option.some.injEq, Prod.mk.injEq] at h
        obtain ⟨hj, hc0⟩ := h
        obtain ⟨hfj, hla, rest⟩ := armPhase_sound w owner repo dir ARM_CANDIDATES j0 c0 harm
        rw [← hj, ← hc0]
        exact ⟨hfj, (looksLikeArm_iff j0).mp hla, rest⟩
  · intro w owner repo dir j hf hres
    have hla : looksLikeArm j = true := (looksLikeArm_iff j).mpr (Or.inl hres)
    have harm : armPhase w owner repo dir ARM_CANDIDATES
        = .ok (some (j, "azuredeploy.json")) := by
      rw [show ARM_CANDIDATES = "azuredeploy.json" :: ["main.json", "template.json"] from rfl]
      unfold armPhase
      rw [hf]
      simp only [Bind.bind, Except.bind]
      rw [if_pos hla]
    unfold try_fetch_template
    rw [harm]
    simp [Bind.bind, Except.bind]

theorem try_fetch_template_arm_priority_witness :
    try_fetch_template wC4b "o" "r" "d" = .ok (some (armOneRes, "azuredeploy.json")) :=
  try_fetch_template_arm_priority.2 wC4b "o" "r" "d" armOneRes rfl rfl

/-- A rejected ARM candidate (path fetches to null) just moves the loop
to the next candidate. -/
theorem armPhase_cons_none (w : World) (owner repo dir c : String) (cs : List String)
    (h : w.fetch owner repo (joinDir dir c) = .ok none) :
    armPhase w owner repo dir (c :: cs) = armPhase w owner repo dir cs := by
  simp only [armPhase]
  rw [h]
  rfl

/-- A Bicep candidate that fetches to a dict containing `_raw` is
accepted on the spot. -/
theorem bicepPhase_cons_raw (w : World) (owner repo dir c : String) (cs : List String)
    (j : Json) (h : w.fetch owner repo (joinDir dir c) = .ok (some (.json j)))
    (hr : j.hasKey "_raw" = true) :
    bicepPhase w owner repo dir (c :: cs) = .ok (some (j, c)) := by
  simp only [bicepPhase]
  rw [h]
  simp only [Bind.bind, Except.bind]
  rw [if_pos hr]

/-- Claim C5, counterexample: resolving a directory containing only
`main.bicep` (world `wC5`) yields a document whose `metadata` field is
the empty sidecar object, with no `_raw` key — the wrapped bicep text is
the resolver's return value but is never stored in the document. -/
theorem bicep_document_metadata_empty :
    fetch_architectures wC5 1 (some ["o/r"]) 10 = .ok [docC5] ∧
    docC5.metadata = Json.obj [] ∧
    docC5.metadata.getKey "_raw" = none ∧
    Json.obj [] ≠ bicepWrapped :=
  ⟨rfl, rfl, rfl, by simp [bicepWrapped]⟩

/-- Claim C5, amended: resolving a directory whose only template file is
`main.bicep` returns the wrapped raw text `\x7b"_raw": text\x7d` from the
resolver, and the built document has empty `services`,
`arm_parameters_keys` and `arm_outputs_keys`, and `metadata == \x7b\x7d` (the
missing-sidecar default); the wrapped bicep text is not stored in the
document. -/
theorem bicep_resolution_document_shape (w : World) (owner repo dir raw : String)
    (h1 : w.fetch owner repo (joinDir dir "azuredeploy.json") = .ok none)
    (h2 : w.fetch owner repo (joinDir dir "main.json") = .ok none)
    (h3 : w.fetch owner repo (joinDir dir "template.json") = .ok none)
    (h4 : w.fetch owner repo (joinDir dir "main.bicep")
        = .ok (some (.json (Json.obj [("_raw", Json.str raw)]))))
    (h5 : w.fetch owner repo
        (if dir != "" then dir ++ "/metadata.json" else "metadata.json") = .ok none) :
    try_fetch_template w owner repo dir
        = .ok (some (Json.obj [("_raw", Json.str raw)], "main.bicep")) ∧
    try_fetch_metadata w owner repo dir = .ok none ∧
    (build_arch_doc owner repo dir "main.bicep"
      (Json.obj [("_raw", Json.str raw)]) none).services = [] ∧
    (build_arch_doc owner repo dir "main.bicep"
      (Json.obj [("_raw", Json.str raw)]) none).arm_parameters_keys = [] ∧
    (build_arch_doc owner repo dir "main.bicep"
      (Json.obj [("_raw", Json.str raw)]) none).arm_outputs_keys = [] ∧
    (build_arch_doc owner repo dir "main.bicep"
      (Json.obj [("_raw", Json.str raw)]) none).metadata = Json.obj [] := by
  have harm : armPhase w owner repo dir ARM_CANDIDATES = .ok none := by
    rw [show ARM_CANDIDATES = "azuredeploy.json" :: "main.json" :: "template.json" :: []
        from rfl]
    rw [armPhase_cons_none w owner repo dir _ _ h1,
        armPhase_cons_none w owner repo dir _ _ h2,
        armPhase_cons_none w owner repo dir _ _ h3]
    rfl
  have hbic : bicepPhase w owner repo dir BICEP_CANDIDATES
      = .ok (some (Json.obj [("_raw", Json.str raw)], "main.bicep")) := by
    rw [show BICEP_CANDIDATES = "main.bicep" :: "azuredeploy.bicep" :: "template.bicep" :: []
        from rfl]
    exact bicepPhase_cons_raw w owner repo dir _ _ _ h4 rfl
  refine ⟨?_, ?_, rfl, rfl, rfl, rfl⟩
  · unfold try_fetch_template
    rw [harm]
    simpa [Bind.bind, Except.bind] using hbic
  · unfold try_fetch_metadata
    rw [h5]
    rfl

theorem bicep_resolution_document_shape_witness :
    try_fetch_template wC5 "o" "r" "d" = .ok (some (bicepWrapped, "main.bicep")) ∧
    try_fetch_metadata wC5 "o" "r" "d" = .ok none ∧
    docC5.services = [] ∧ docC5.arm_parameters_keys = [] ∧
    docC5.arm_outputs_keys = [] ∧ docC5.metadata = Json.obj [] :=
  bicep_resolution_document_shape wC5 "o" "r" "d" bicepRawText rfl rfl rfl rfl rfl

/-- `charsLt` decides the library's lexicographic order `List.lt`. -/
theorem charsLt_iff : ∀ (as bs : List Char), charsLt as bs = true ↔ List.lt as bs
  | [], [] => ⟨fun h => (nomatch h), fun h => (nomatch h)⟩
  | [], b :: bs => ⟨fun _ => List.lt.nil b bs, fun _ => rfl⟩
  | _ :: _, [] => ⟨fun h => (nomatch h), fun h => (nomatch h)⟩
  | a :: as, b :: bs => by
      unfold charsLt
      by_cases h1 : a < b
      · rw [if_pos h1]
        exact ⟨fun _ => List.lt.head as bs h1, fun _ => rfl⟩
      · rw [if_neg h1]
        by_cases h2 : b < a
        · rw [if_pos h2]
          refine ⟨fun h => (nomatch h), fun h => ?_⟩
          cases h with
          | head _ _ hab => exact absurd hab h1
          | tail _ hba _ => exact absurd h2 hba
        · rw [if_neg h2]
          rw [charsLt_iff as bs]
          refine ⟨fun h => List.lt.tail h1 h2 h, fun h => ?_⟩
          cases h with
          | head _ _ hab => exact absurd hab h1
          | tail _ _ htl => exact htl

/-- Totality of `charsLt`. -/
theorem charsLt_trichotomy : ∀ (as bs : List Char),
    charsLt as bs = true ∨ as = bs ∨ charsLt bs as = true
  | [], [] => Or.inr (Or.inl rfl)
  | [], _ :: _ => Or.inl rfl
  | _ :: _, [] => Or.inr (Or.inr rfl)
  | a :: as, b :: bs => by
      rcases lt_trichotomy a b with h | h | h
      · exact Or.inl (by simp [charsLt, h])
      · subst h
        rcases charsLt_trichotomy as bs with h' | h' | h'
        · exact Or.inl (by simp [charsLt, lt_irrefl, h'])
        · exact Or.inr (Or.inl (by rw [h']))
        · exact Or.inr (Or.inr (by simp [charsLt, lt_irrefl, h']))
      · exact Or.inr (Or.inr (by simp [charsLt, h]))

/-- Totality of `pyStrLt`. -/
theorem pyStrLt_trichotomy (s t : String) :
    pyStrLt s t = true ∨ s = t ∨ pyStrLt t s = true := by
  obtain ⟨sd⟩ := s
  obtain ⟨td⟩ := t
  rcases charsLt_trichotomy sd td with h | h | h
  · exact Or.inl h
  · exact Or.inr (Or.inl (by rw [h]))
  · exact Or.inr (Or.inr h)

/-- On string values, `jsonEqPy` is string equality. -/
theorem jsonEqPy_str_str (s t : String) :
    jsonEqPy (Json.str s) (Json.str t) = true ↔ s = t := by
  simp [jsonEqPy, Json.beq]

/-- Inserting a string into an all-string list adds exactly it (or
nothing, when it is already present). -/
theorem mem_insertSortedJson (s : String) :
    ∀ (l : List Json), (∀ w ∈ l, ∃ t, w = Json.str t) →
    ∀ v, v ∈ insertSortedJson (Json.str s) l ↔ v = Json.str s ∨ v ∈ l
  | [], _, v => by simp [insertSortedJson]
  | y :: ys, h, v => by
      obtain ⟨t, rfl⟩ := h y (List.mem_cons_self y ys)
      unfold insertSortedJson
      by_cases h1 : jsonLtb (Json.str s) (Json.str t) = true
      · rw [if_pos h1]
        simp [List.mem_cons]
      · rw [if_neg h1]
        by_cases h2 : jsonEqPy (Json.str s) (Json.str t) = true
        · rw [if_pos h2]
          have hst : s = t := (jsonEqPy_str_str s t).mp h2
          subst hst
          simp [List.mem_cons]
        · rw [if_neg h2]
          have hys := fun w hw => h w (List.mem_cons_of_mem _ hw)
          simp only [List.mem_cons, mem_insertSortedJson s ys hys v]
          tauto

/-- Inserting a string into an ascending all-string list keeps it
ascending. -/
theorem chain_insertSortedJson (s : String) :
    ∀ (l : List Json), (∀ w ∈ l, ∃ t, w = Json.str t) →
    List.Chain' (fun a b => jsonLtb a b = true) l →
    List.Chain' (fun a b => jsonLtb a b = true) (insertSortedJson (Json.str s) l)
  | [], _, _ => by simp [insertSortedJson]
  | y :: ys, hstr, h => by
      obtain ⟨t, rfl⟩ := hstr y (List.mem_cons_self y ys)
      unfold insertSortedJson
      by_cases h1 : jsonLtb (Json.str s) (Json.str t) = true
      · rw [if_pos h1]
        exact List.chain'_cons.mpr ⟨h1, h⟩
      · rw [if_neg h1]
        by_cases h2 : jsonEqPy (Json.str s) (Json.str t) = true
        · rw [if_pos h2]
          exact h
        · rw [if_neg h2]
          have hts : jsonLtb (Json.str t) (Json.str s) = true := by
            rcases pyStrLt_trichotomy s t with hlt | heq | hgt
            · exact absurd hlt h1
            · exact absurd ((jsonEqPy_str_str s t).mpr heq) h2
            · exact hgt
          cases ys with
          | nil => exact List.chain'_cons.mpr ⟨hts, List.chain'_singleton _⟩
          | cons z zs =>
              obtain ⟨u, rfl⟩ := hstr z (List.mem_cons_of_mem _ (List.mem_cons_self z zs))
              have hcz := List.chain'_cons.mp h
              have hzs : ∀ w ∈ Json.str u :: zs, ∃ t2, w = Json.str t2 :=
                fun w hw => hstr w (List.mem_cons_of_mem _ hw)
              have hrec := chain_insertSortedJson s (Json.str u :: zs) hzs hcz.2
              unfold insertSortedJson at hrec ⊢
              by_cases h3 : jsonLtb (Json.str s) (Json.str u) = true
              · rw [if_pos h3] at hrec ⊢
                exact List.chain'_cons.mpr ⟨hts, hrec⟩
              · rw [if_neg h3] at hrec ⊢
                by_cases h4 : jsonEqPy (Json.str s) (Json.str u) = true
                · rw [if_pos h4] at hrec ⊢
                  exact h
                · rw [if_neg h4] at hrec ⊢
                  exact List.chain'_cons.mpr ⟨hcz.1, hrec⟩

/-- Insertion keeps an all-string list all-string. -/
theorem allStr_insertSortedJson (s : String) (l : List Json)
    (h : ∀ w ∈ l, ∃ t, w = Json.str t) :
    ∀ w ∈ insertSortedJson (Json.str s) l, ∃ t, w = Json.str t := by
  intro w hw
  rcases (mem_insertSortedJson s l h w).mp hw with rfl | hwl
  · exact ⟨s, rfl⟩
  · exact h w hwl

/-- The sorted-set fold on all-string input: the result is ascending,
all-string, and contains exactly the accumulator and the input values. -/
theorem pySortedSet_go :
    ∀ (l acc : List Json),
    (∀ w ∈ l, ∃ t, w = Json.str t) → (∀ w ∈ acc, ∃ t, w = Json.str t) →
    List.Chain' (fun a b => jsonLtb a b = true) acc →
    (List.Chain' (fun a b => jsonLtb a b = true)
        (l.foldl (fun acc x => insertSortedJson x acc) acc) ∧
      (∀ w ∈ l.foldl (fun acc x => insertSortedJson x acc) acc, ∃ t, w = Json.str t) ∧
      (∀ v, v ∈ l.foldl (fun acc x => insertSortedJson x acc) acc ↔ v ∈ acc ∨ v ∈ l))
  | [], acc, _, hacc, hch => ⟨hch, hacc, fun v => by simp⟩
  | x :: xs, acc, hl, hacc, hch => by
      obtain ⟨s, rfl⟩ := hl x (List.mem_cons_self x xs)
      simp only [List.foldl_cons]
      have hxs : ∀ w ∈ xs, ∃ t, w = Json.str t := fun w hw => hl w (List.mem_cons_of_mem _ hw)
      obtain ⟨c1, c2, c3⟩ := pySortedSet_go xs (insertSortedJson (Json.str s) acc) hxs
        (allStr_insertSortedJson s acc hacc) (chain_insertSortedJson s acc hacc hch)
      refine ⟨c1, c2, fun v => ?_⟩
      rw [c3 v, mem_insertSortedJson s acc hacc v]
      simp only [List.mem_cons]
      tauto

/-- An ascending all-string chain under `jsonLtb` is an ascending chain
of string values in the library lexicographic order `List.lt`. -/
theorem chain_str_of_jsonLtb :
    ∀ (l : List Json), (∀ w ∈ l, ∃ t, w = Json.str t) →
    List.Chain' (fun a b => jsonLtb a b = true) l →
    List.Chain' (fun a b : Json =>
      ∃ sa sb, a = Json.str sa ∧ b = Json.str sb ∧ List.lt sa.data sb.data) l
  | [], _, _ => List.chain'_nil
  | [a], _, _ => List.chain'_singleton a
  | a :: b :: t, hstr, h => by
      have hab := List.chain'_cons.mp h
      obtain ⟨sa, rfl⟩ := hstr a (by simp)
      obtain ⟨sb, rfl⟩ := hstr b (by simp)
      refine List.chain'_cons.mpr ⟨⟨sa, sb, rfl, rfl, (charsLt_iff _ _).mp hab.1⟩, ?_⟩
      exact chain_str_of_jsonLtb (Json.str sb :: t)
        (fun w hw => hstr w (List.mem_cons_of_mem _ hw)) hab.2

/-- Claim C6, counterexample: a resource entry whose type is the empty
string has a type string, yet it is excluded from `services` — the code
filters by truthiness of the value, not by key presence. -/
theorem services_drop_empty_type_string :
    (parse_arm_resources armEmptyTypeStr).map ResourceEntry.type = [Json.str ""] ∧
    (build_arch_doc "o" "r" "d" "azuredeploy.json" armEmptyTypeStr none).services = [] ∧
    ([] : List Json) ≠ [Json.str ""] :=
  ⟨rfl, rfl, fun hx => (nomatch hx)⟩

/-- Claim C6, amended: `services` is the ascending duplicate-free
enumeration (Python `==` and `<` semantics) of the truthy `type` values
of the parsed resource entries; entries whose type is absent, null,
empty or otherwise falsy are excluded, while truthy non-string values
(e.g. numbers) are kept as-is.  When every truthy type value is a
string, `services` is the case-sensitive ascending lexicographic
enumeration of the distinct type strings, and `resource_count` is its
length (the distinct-type count). -/
theorem services_sorted_distinct (owner repo dir tmpl : String) (arm : Json)
    (meta : Option Json) (h : arm.hasKey "_raw" = false)
    (hstr : ∀ e ∈ parse_arm_resources arm, e.type.truthy = true → ∃ s, e.type = Json.str s) :
    (∀ v ∈ (build_arch_doc owner repo dir tmpl arm meta).services, ∃ s, v = Json.str s) ∧
    List.Chain' (fun a b : Json =>
        ∃ sa sb, a = Json.str sa ∧ b = Json.str sb ∧ List.lt sa.data sb.data)
      (build_arch_doc owner repo dir tmpl arm meta).services ∧
    (∀ v, v ∈ (build_arch_doc owner repo dir tmpl arm meta).services ↔
      (v ∈ (parse_arm_resources arm).map ResourceEntry.type ∧ v.truthy = true)) ∧
    (build_arch_doc owner repo dir tmpl arm meta).resource_count
      = (build_arch_doc owner repo dir tmpl arm meta).services.length := by
  have hs : (build_arch_doc owner repo dir tmpl arm meta).services
      = pySortedSet (((parse_arm_resources arm).map ResourceEntry.type).filter Json.truthy) := by
    unfold build_arch_doc
    simp [h]
  have hvals : ∀ w ∈ ((parse_arm_resources arm).map ResourceEntry.type).filter Json.truthy,
      ∃ t, w = Json.str t := by
    intro w hw
    rw [List.mem_filter] at hw
    obtain ⟨e, he, rfl⟩ := List.mem_map.mp hw.1
    exact hstr e he hw.2
  obtain ⟨c1, c2, c3⟩ := pySortedSet_go
    (((parse_arm_resources arm).map ResourceEntry.type).filter Json.truthy) [] hvals
    (by simp) List.chain'_nil
  refine ⟨?_, ?_, ?_, rfl⟩
  · rw [hs]
    exact c2
  · rw [hs]
    exact chain_str_of_jsonLtb _ c2 c1
  · intro v
    rw [hs]
    unfold pySortedSet
    rw [c3 v]
    simp [List.mem_filter]

theorem services_sorted_distinct_witness :
    (build_arch_doc "o" "r" "d" "azuredeploy.json" armTwoTypes none).services
      = [Json.str "Microsoft.Network/vnets", Json.str "Microsoft.Storage/storageAccounts"] ∧
    (build_arch_doc "o" "r" "d" "azuredeploy.json" armTwoTypes none).resource_count
      = (build_arch_doc "o" "r" "d" "azuredeploy.json" armTwoTypes none).services.length ∧
    (build_arch_doc "o" "r" "d" "azuredeploy.json" armNumType none).services = [Json.num 5] := by
  have hstr : ∀ e ∈ parse_arm_resources armTwoTypes, e.type.truthy = true →
      ∃ s, e.type = Json.str s := by
    have hp : parse_arm_resources armTwoTypes =
        [⟨Json.str "Microsoft.Storage/storageAccounts", Json.null, Json.null, none, none⟩,
         ⟨Json.str "Microsoft.Network/vnets", Json.null, Json.null, none, none⟩,
         ⟨Json.str "Microsoft.Storage/storageAccounts", Json.null, Json.null, none, none⟩] := rfl
    intro e he _
    rw [hp] at he
    simp only [List.mem_cons, List.not_mem_nil, or_false] at he
    rcases he with rfl | rfl | rfl
    · exact ⟨"Microsoft.Storage/storageAccounts", rfl⟩
    · exact ⟨"Microsoft.Network/vnets", rfl⟩
    · exact ⟨"Microsoft.Storage/storageAccounts", rfl⟩
  exact ⟨rfl,
    (services_sorted_distinct "o" "r" "d" "azuredeploy.json" armTwoTypes none rfl hstr).2.2.2,
    rfl⟩

/-- Claim C9, counterexample: with no truthy sidecar name and a non-empty
`quickstart_dir` ending in a slash, the name is the empty last segment:
the repository-name fallback is not reached, contrary to the
first-non-empty precedence reading. -/
theorem name_trailing_slash_not_repo :
    (build_arch_doc "o" "somerepo" "a/" "azuredeploy.json" (Json.obj []) none).name
      = Json.str "" ∧
    Json.str "" ≠ Json.str "somerepo" :=
  ⟨rfl, by simp⟩

/-- Claim C9, amended: the name is the first truthy value among sidecar
`itemDisplayName`, `title`, `name`; failing those, the last `/`-segment
of `quickstart_dir` whenever `quickstart_dir` is non-empty (even when
that segment is empty), and the repository name only when
`quickstart_dir` is empty. -/
theorem build_arch_doc_name_precedence (owner repo dir tmpl : String) (arm : Json)
    (md : Option Json) :
    ((((metaOf md).getKeyD "itemDisplayName").truthy = true →
      (build_arch_doc owner repo dir tmpl arm md).name
        = (metaOf md).getKeyD "itemDisplayName") ∧
    (((metaOf md).getKeyD "itemDisplayName").truthy = false →
      ((metaOf md).getKeyD "title").truthy = true →
      (build_arch_doc owner repo dir tmpl arm md).name = (metaOf md).getKeyD "title") ∧
    (((metaOf md).getKeyD "itemDisplayName").truthy = false →
      ((metaOf md).getKeyD "title").truthy = false →
      ((metaOf md).getKeyD "name").truthy = true →
      (build_arch_doc owner repo dir tmpl arm md).name = (metaOf md).getKeyD "name") ∧
    (((metaOf md).getKeyD "itemDisplayName").truthy = false →
      ((metaOf md).getKeyD "title").truthy = false →
      ((metaOf md).getKeyD "name").truthy = false → dir ≠ "" →
      (build_arch_doc owner repo dir tmpl arm md).name = Json.str (lastSegment dir)) ∧
    (((metaOf md).getKeyD "itemDisplayName").truthy = false →
      ((metaOf md).getKeyD "title").truthy = false →
      ((metaOf md).getKeyD "name").truthy = false → dir = "" →
      (build_arch_doc owner repo dir tmpl arm md).name = Json.str repo)) := by
  refine ⟨?_, ?_, ?_, ?_, ?_⟩
  · intro h1
    simp [build_arch_doc, pyOr, h1]
  · intro h1 h2
    simp [build_arch_doc, pyOr, h1, h2]
  · intro h1 h2 h3
    simp [build_arch_doc, pyOr, h1, h2, h3]
  · intro h1 h2 h3 h4
    simp [build_arch_doc, pyOr, h1, h2, h3, h4, bne_iff_ne]
  · intro h1 h2 h3 h4
    simp [build_arch_doc, pyOr, h1, h2, h3, h4]

theorem build_arch_doc_name_precedence_witness :
    (build_arch_doc "Contoso" "infra" "q" "azuredeploy.json" armOneRes
      (some metaTitleOnly)).name = Json.str "My App" ∧
    (build_arch_doc "Contoso" "infra" "101-foo/bar" "azuredeploy.json" armOneRes
      none).name = Json.str "bar" :=
  ⟨(build_arch_doc_name_precedence "Contoso" "infra" "q" "azuredeploy.json" armOneRes
      (some metaTitleOnly)).2.1 rfl rfl,
   (build_arch_doc_name_precedence "Contoso" "infra" "101-foo/bar" "azuredeploy.json"
      armOneRes none).2.2.2.1 rfl rfl rfl (by decide)⟩

theorem per_source_apportionment_witness :
    fetch_architectures wC7 4 (some ["o/empty", "o/rich"]) 10
        = goSources wC7 4 (max 1 (4 / 2)) 10 ["o/empty", "o/rich"] [] ∧
    fetch_architectures wC7 4 (some ["o/empty", "o/rich"]) 10 = .ok docsC7 ∧
    docsC7.length = 2 :=
  ⟨(per_source_apportionment wC7 4 10 ["o/empty", "o/rich"] docsC7 (by simp) rfl).1,
    rfl, rfl⟩

end AzureArch

